import Mathlib

/-!
Verification of the SutraQuery retrieval pipeline (Gita-Chatbot repository).

The development shallowly embeds the algorithmic core of the repository:
the text chunker (`utils/text_utils.py`), the hash-based fallback embedder
(`services/api_client.py`), the local FAISS vector store
(`services/faiss_vector_store.py`), the remote Qdrant store boundary
(`services/vector_store.py`) and the RAG orchestrator
(`services/rag_service.py`).

Modelling conventions:
* Python strings are `List Char`; Python floats are exact rationals `ℚ`.
* `numpy` square roots are modelled by an exact rational square root which
  agrees with the real square root on perfect squares (every concrete
  instance used below is exact).
* External network calls (Qdrant client, the generation endpoint, the
  remote embedding endpoint) are boundaries: they are modelled by their
  documented request/response shapes, passed in as explicit parameters.
* All loops are embedded with explicit fuel that provably suffices, so
  every definition is executable and kernel-reducible.
-/

set_option maxHeartbeats 2000000
set_option maxRecDepth 100000

namespace SutraQuery

/-- Characters treated as whitespace by Python `str.strip()` and the regex
class `\s` (ASCII subset; the corpus-relevant inputs are ASCII). -/
def pyIsSpace (c : Char) : Bool :=
  c = ' ' || c = '\t' || c = '\n' || c = '\r' || c = '\x0b' || c = '\x0c'

/-- Python `str.strip()`: drop whitespace from both ends. -/
def pyStrip (l : List Char) : List Char :=
  ((l.dropWhile pyIsSpace).reverse.dropWhile pyIsSpace).reverse

/-- Python `str.lower()` (ASCII case folding). -/
def pyLower (l : List Char) : List Char := l.map Char.toLower

/-- Python slice `text[a:b]` for `0 ≤ a ≤ b` (the only form the chunker
uses once `overlap ≤ chunk_size`, see `chunk_text_coverage`). -/
def slice (a b : Nat) (l : List Char) : List Char := (l.drop a).take (b - a)

/-- String literal to the character-list model. -/
def s2l (s : String) : List Char := s.data

/- `config.py`: configuration constants. -/
namespace Config

def CHUNK_SIZE : Nat := 400

def CHUNK_OVERLAP : Nat := 100

def SIMILARITY_THRESHOLD : ℚ := 65 / 100

end Config

/-- `utils/text_utils.py`: `TextChunker(chunk_size=400, overlap=100)`. -/
structure TextChunker where
  chunk_size : Nat
  overlap : Nat
deriving DecidableEq

/-- The chunker with the default constructor arguments (400, 100). -/
def defaultTextChunker : TextChunker := ⟨400, 100⟩

namespace TextChunker

/-- The character class of the regex `[.!?।॥]`. -/
def sentChar (c : Char) : Bool :=
  c = '.' || c = '!' || c = '?' || c = '।' || c = '॥'

/-- The character class of the regex `[,;]`. -/
def clauseChar (c : Char) : Bool := c = ',' || c = ';'

/-- Relative end position (exclusive) of the leftmost match of the regex
`[punct]\s+` in `l`, if any (`re.finditer` yields matches left to right and
the code returns on the first one; the greedy `\s+` consumes the maximal
whitespace run inside the slice). -/
def firstPunctSpaceEnd (punct : Char → Bool) : List Char → Option Nat
  | [] => none
  | c :: rest =>
    if punct c && (match rest with | r :: _ => pyIsSpace r | [] => false) then
      some (1 + (rest.takeWhile pyIsSpace).length)
    else
      (firstPunctSpaceEnd punct rest).map (· + 1)

/-- Index of the last newline character of `l`, if any. -/
def lastNewlineIdx : List Char → Option Nat
  | [] => none
  | c :: rest =>
    match lastNewlineIdx rest with
    | some j => some (j + 1)
    | none => if c = '\n' then some 0 else none

/-- Relative end position (exclusive) of the leftmost match of the regex
`\n\s*\n` in `l`, if any.  At a newline the greedy-with-backtracking
`\s*\n` ends just after the last newline inside the following whitespace
run; when that run holds no newline the engine moves on. -/
def paraBreakEnd : List Char → Option Nat
  | [] => none
  | c :: rest =>
    if c = '\n' then
      match lastNewlineIdx (rest.takeWhile pyIsSpace) with
      | some j => some (1 + j + 1)
      | none => (paraBreakEnd rest).map (· + 1)
    else (paraBreakEnd rest).map (· + 1)

/-- `TextChunker._find_sentence_boundary(text, start, end)`: best boundary
inside `text[start:end]`, trying sentence endings, then paragraph breaks,
then clause breaks, else the raw end. -/
def find_sentence_boundary (text : List Char) (s e : Nat) : Nat :=
  let seg := slice s e text
  match firstPunctSpaceEnd sentChar seg with
  | some r => s + r
  | none =>
    match paraBreakEnd seg with
    | some r => s + r
    | none =>
      match firstPunctSpaceEnd clauseChar seg with
      | some r => s + r
      | none => e

/-- The right edge of the window that starts at `start`:
`end = start + chunk_size`, snapped to `_find_sentence_boundary` over the
trailing `overlap` characters when this is not the last window and the
boundary lies strictly right of `start`. -/
def chunkEnd (ck : TextChunker) (text : List Char) (start : Nat) : Nat :=
  let e := start + ck.chunk_size
  if e < text.length then
    let sb := find_sentence_boundary text (e - ck.overlap) e
    if sb > start then sb else e
  else e

/-- `start = max(start + 1, end - self.overlap)`: the next window start. -/
def nextStart (ck : TextChunker) (text : List Char) (start : Nat) : Nat :=
  max (start + 1) (chunkEnd ck text start - ck.overlap)

/-- The `while start < len(text)` loop of `chunk_text`, with explicit fuel.
Each iteration strips the window, keeps it when nonempty, and advances to
`nextStart`.  Fuel `text.length` suffices because `start` strictly
increases (see `chunk_progress`). -/
def chunkLoop (ck : TextChunker) (text : List Char) : Nat → Nat → List (List Char)
  | 0, _ => []
  | fuel + 1, start =>
    if start < text.length then
      let e := chunkEnd ck text start
      let chunk := pyStrip (slice start e text)
      let rest := chunkLoop ck text fuel (nextStart ck text start)
      if chunk = [] then rest else chunk :: rest
    else []

/-- `TextChunker.chunk_text(text)`: split text into overlapping chunks. -/
def chunk_text (ck : TextChunker) (text : List Char) : List (List Char) :=
  if text = [] then []
  else if text.length < ck.chunk_size then [text]
  else chunkLoop ck text text.length 0

end TextChunker

/- `hashlib.md5` (Python standard library, an external dependency of
`services/api_client.py`): the MD5 digest, RFC 1321, embedded in full so
that the hash-based fallback embedding is fully executable. -/
namespace MD5

/-- The 64 round constants `K[i] = floor(abs(sin(i+1)) * 2^32)`. -/
def K : List Nat := [
  0xd76aa478, 0xe8c7b756, 0x242070db, 0xc1bdceee, 0xf57c0faf, 0x4787c62a, 0xa8304613, 0xfd469501,
  0x698098d8, 0x8b44f7af, 0xffff5bb1, 0x895cd7be, 0x6b901122, 0xfd987193, 0xa679438e, 0x49b40821,
  0xf61e2562, 0xc040b340, 0x265e5a51, 0xe9b6c7aa, 0xd62f105d, 0x02441453, 0xd8a1e681, 0xe7d3fbc8,
  0x21e1cde6, 0xc33707d6, 0xf4d50d87, 0x455a14ed, 0xa9e3e905, 0xfcefa3f8, 0x676f02d9, 0x8d2a4c8a,
  0xfffa3942, 0x8771f681, 0x6d9d6122, 0xfde5380c, 0xa4beea44, 0x4bdecfa9, 0xf6bb4b60, 0xbebfbc70,
  0x289b7ec6, 0xeaa127fa, 0xd4ef3085, 0x04881d05, 0xd9d4d039, 0xe6db99e5, 0x1fa27cf8, 0xc4ac5665,
  0xf4292244, 0x432aff97, 0xab9423a7, 0xfc93a039, 0x655b59c3, 0x8f0ccc92, 0xffeff47d, 0x85845dd1,
  0x6fa87e4f, 0xfe2ce6e0, 0xa3014314, 0x4e0811a1, 0xf7537e82, 0xbd3af235, 0x2ad7d2bb, 0xeb86d391]

/-- The 64 per-round left-rotation amounts. -/
def S : List Nat := [
  7, 12, 17, 22, 7, 12, 17, 22, 7, 12, 17, 22, 7, 12, 17, 22,
  5,  9, 14, 20, 5,  9, 14, 20, 5,  9, 14, 20, 5,  9, 14, 20,
  4, 11, 16, 23, 4, 11, 16, 23, 4, 11, 16, 23, 4, 11, 16, 23,
  6, 10, 15, 21, 6, 10, 15, 21, 6, 10, 15, 21, 6, 10, 15, 21]

/-- 2^32, the word modulus. -/
def M32 : Nat := 4294967296

/-- Bitwise complement within 32 bits (arguments are below 2^32). -/
def not32 (a : Nat) : Nat := 4294967295 - a

/-- Left-rotation of a 32-bit word. -/
def rotl (x s : Nat) : Nat := ((x <<< s) ||| (x >>> (32 - s))) % M32

/-- The eight bytes of the 64-bit little-endian message bit length. -/
def lenBytes (bitLen : Nat) : List Nat :=
  (List.range 8).map (fun i => (bitLen >>> (8 * i)) &&& 255)

/-- MD5 padding: `0x80`, zeros to 56 mod 64, then the 64-bit bit length. -/
def padMessage (m : List Nat) : List Nat :=
  m ++ [128] ++ List.replicate ((56 + 64 - ((m.length + 1) % 64)) % 64) 0
    ++ lenBytes (m.length * 8)

/-- Byte `i` of a block (0 when out of range; never hit on real blocks). -/
def byteAt (l : List Nat) (i : Nat) : Nat := l.getD i 0

/-- The `j`-th little-endian 32-bit word of a 64-byte block. -/
def wordAt (block : List Nat) (j : Nat) : Nat :=
  byteAt block (4 * j) + byteAt block (4 * j + 1) * 256
    + byteAt block (4 * j + 2) * 65536 + byteAt block (4 * j + 3) * 16777216

/-- One MD5 round on state `(A, B, C, D)`. -/
def roundOp (block : List Nat) (st : Nat × Nat × Nat × Nat) (i : Nat) :
    Nat × Nat × Nat × Nat :=
  let A := st.1
  let B := st.2.1
  let C := st.2.2.1
  let D := st.2.2.2
  let fg : Nat × Nat :=
    if i < 16 then ((B &&& C) ||| (not32 B &&& D), i)
    else if i < 32 then ((D &&& B) ||| (not32 D &&& C), (5 * i + 1) % 16)
    else if i < 48 then (B ^^^ C ^^^ D, (3 * i + 5) % 16)
    else (C ^^^ (B ||| not32 D), (7 * i) % 16)
  let f := (fg.1 + A + K.getD i 0 + wordAt block fg.2) % M32
  (D, (B + rotl f (S.getD i 0)) % M32, B, C)

/-- Process one 64-byte block: 64 rounds, then add into the state. -/
def processBlock (st : Nat × Nat × Nat × Nat) (block : List Nat) :
    Nat × Nat × Nat × Nat :=
  let r := (List.range 64).foldl (roundOp block) st
  ((st.1 + r.1) % M32, (st.2.1 + r.2.1) % M32,
   (st.2.2.1 + r.2.2.1) % M32, (st.2.2.2 + r.2.2.2) % M32)

/-- Split the padded message into 64-byte blocks (fuel-driven; the fuel
`l.length` suffices since each step drops 64 bytes of a nonempty list). -/
def toBlocksAux : Nat → List Nat → List (List Nat)
  | 0, _ => []
  | fuel + 1, l => if l = [] then [] else l.take 64 :: toBlocksAux fuel (l.drop 64)

/-- The 64-byte blocks of a byte list. -/
def toBlocks (l : List Nat) : List (List Nat) := toBlocksAux l.length l

/-- The four final state words of the MD5 of a byte message. -/
def md5Words (m : List Nat) : Nat × Nat × Nat × Nat :=
  (toBlocks (padMessage m)).foldl processBlock
    (0x67452301, 0xefcdab89, 0x98badcfe, 0x10325476)

/-- The four little-endian bytes of a 32-bit word. -/
def wordLEBytes (w : Nat) : List Nat :=
  [w &&& 255, (w >>> 8) &&& 255, (w >>> 16) &&& 255, (w >>> 24) &&& 255]

/-- The 16-byte MD5 digest of a byte message. -/
def md5Bytes (m : List Nat) : List Nat :=
  wordLEBytes (md5Words m).1 ++ wordLEBytes (md5Words m).2.1
    ++ wordLEBytes (md5Words m).2.2.1 ++ wordLEBytes (md5Words m).2.2.2

/-- Lowercase hexadecimal digit. -/
def hexChar (n : Nat) : Char :=
  if n < 10 then Char.ofNat (48 + n) else Char.ofNat (87 + n)

/-- The two hex characters of a byte. -/
def byteHex (b : Nat) : List Char := [hexChar (b / 16), hexChar (b % 16)]

/-- `hashlib.md5(m).hexdigest()`: the 32-character lowercase hex digest. -/
def hexdigest (m : List Nat) : List Char := List.flatten ((md5Bytes m).map byteHex)

end MD5

/-- UTF-8 encoding of one character (Python `str.encode()`). -/
def utf8EncodeChar (c : Char) : List Nat :=
  let n := c.toNat
  if n < 0x80 then [n]
  else if n < 0x800 then [0xC0 + n / 64, 0x80 + n % 64]
  else if n < 0x10000 then
    [0xE0 + n / 4096, 0x80 + (n / 64) % 64, 0x80 + n % 64]
  else
    [0xF0 + n / 262144, 0x80 + (n / 4096) % 64, 0x80 + (n / 64) % 64, 0x80 + n % 64]

/-- Python `text.encode()`: UTF-8 bytes of a string. -/
def utf8Encode (l : List Char) : List Nat := List.flatten (l.map utf8EncodeChar)

/- `services/api_client.py`: the embedding client. -/
namespace APIClient

/-- Value of a lowercase hex digit (only digest characters occur). -/
def hexDigitVal (c : Char) : Nat :=
  if c.toNat ≤ 57 then c.toNat - 48 else c.toNat - 87

/-- `for i in range(0, len(text_hash), 2): embedding.append(int(text_hash[i:i+2], 16) / 255.0)`. -/
def hexPairVals : List Char → List ℚ
  | c1 :: c2 :: rest =>
    ((hexDigitVal c1 * 16 + hexDigitVal c2 : Nat) : ℚ) / 255 :: hexPairVals rest
  | [c] => [((hexDigitVal c : Nat) : ℚ) / 255]
  | [] => []

/-- The `while len(embedding) < 1024` padding loop: extend by
`embedding[:min(len(embedding), 1024 - len(embedding))]` each pass.  Fuel
1024 amply suffices since the length doubles from 16 (`padEmbedding_length`). -/
def padEmbedding : Nat → List ℚ → List ℚ
  | 0, l => l
  | fuel + 1, l =>
    if l.length < 1024 then
      padEmbedding fuel (l ++ l.take (min l.length (1024 - l.length)))
    else l

/-- `APIClient._get_embedding_openrouter(text)`: deterministic hash-based
pseudo-embedding — MD5 hex digest, byte pairs scaled into `[0,1]`, padded
by cyclic repetition to 1024, truncated to exactly 1024. -/
def get_embedding_openrouter (text : List Char) : List ℚ :=
  let text_hash := MD5.hexdigest (utf8Encode text)
  let embedding := hexPairVals text_hash
  (padEmbedding 1024 embedding).take 1024

/-- `APIClient.get_embedding(text, use_api)`: with `use_api=False` (the
default and the bulk path) the hash-based embedding is returned directly;
with `use_api=True` the external Mistral endpoint is consulted —
`apiResult` is that network boundary (`some e`: a successful response
embedding; `none`: all retries failed), and failure falls back to the
hash-based embedding. -/
def get_embedding (text : List Char) (use_api : Bool) (apiResult : Option (List ℚ)) :
    List ℚ :=
  if !use_api then get_embedding_openrouter text
  else
    match apiResult with
    | some e => e
    | none => get_embedding_openrouter text

end APIClient

/-- Sum of squares of a vector: the square of its L2 norm. -/
def sumSq (v : List ℚ) : ℚ := (v.map (fun x => x * x)).sum

/-- Newton iteration for the integer square root, with explicit fuel so
that the definition is structural and kernel-reducible (the guess strictly
decreases, so fuel `n` amply suffices; the iteration stops as soon as the
guess stops decreasing, exactly as in the standard implementation). -/
def natSqrtIter : Nat → Nat → Nat → Nat
  | 0, _, guess => guess
  | fuel + 1, n, guess =>
    let next := (guess + n / guess) / 2
    if next < guess then natSqrtIter fuel n next else guess

/-- Integer square root (Newton's method). -/
def natSqrt (n : Nat) : Nat := if n ≤ 1 then n else natSqrtIter n n (n / 2)

/-- `np.linalg.norm` / `math.sqrt`, modelled by the exact rational square
root: exact whenever the argument is the square of a rational (every
concrete instance below is), an under-approximation otherwise — matching
the role the floating-point value plays in the claims proved here. -/
def ratSqrt (q : ℚ) : ℚ := (natSqrt q.num.toNat : ℚ) / (natSqrt q.den : ℚ)

/-- `v / np.linalg.norm(v)`: divide every component by the L2 norm.
No guard against a zero norm, exactly as in the source. -/
def l2normalize (v : List ℚ) : List ℚ := v.map (fun x => x / ratSqrt (sumSq v))

/-- Inner product of two vectors (`faiss.IndexFlatIP` similarity). -/
def ip (u v : List ℚ) : ℚ := (List.zipWith (fun a b => a * b) u v).sum

/-- The payload stored per vector (`metadata_entry` in
`faiss_vector_store.py`; the same eight fields form a Qdrant payload).
`minfo` models the format-specific `metadata` mapping. -/
structure MetaEntry where
  text : List Char
  source : List Char
  chapter : List Char
  verse : List Char
  sanskrit : List Char
  translation : List Char
  explanation : List Char
  minfo : List (List Char × List Char)
deriving DecidableEq

/-- An ingestion document (`doc` dict): `embedding` is `some e` when the
`"embedding"` key is present; the string fields model `doc.get(key, "")`. -/
structure InputDoc where
  embedding : Option (List ℚ)
  text : List Char
  source : List Char
  chapter : List Char
  verse : List Char
  sanskrit : List Char
  translation : List Char
  explanation : List Char
  minfo : List (List Char × List Char)
deriving DecidableEq

/-- The payload extracted from a document. -/
def mkMetaEntry (d : InputDoc) : MetaEntry :=
  ⟨d.text, d.source, d.chapter, d.verse, d.sanskrit, d.translation, d.explanation, d.minfo⟩

/- `services/faiss_vector_store.py`: the local flat inner-product index. -/
namespace FaissVectorStore

/-- The persistent state: the `IndexFlatIP` vector list and the parallel
`self.metadata` list. -/
structure State where
  vectors : List (List ℚ)
  metadata : List MetaEntry
deriving DecidableEq

/-- The embedding batch built by the for-loop of `add_documents`:
documents missing an embedding are skipped with a warning, the rest are
L2-normalized. -/
def batchVectors : List InputDoc → List (List ℚ)
  | [] => []
  | d :: rest =>
    match d.embedding with
    | none => batchVectors rest
    | some e => l2normalize e :: batchVectors rest

/-- The parallel metadata batch of `add_documents`. -/
def batchMetadata : List InputDoc → List MetaEntry
  | [] => []
  | d :: rest =>
    match d.embedding with
    | none => batchMetadata rest
    | some _ => mkMetaEntry d :: batchMetadata rest

/-- `FaissVectorStore.add_documents(documents)`: normalize and append
(the `_save_index` persistence call is I/O and does not change the state). -/
def add_documents (st : State) (documents : List InputDoc) : State :=
  let embeddings := batchVectors documents
  let metadata_batch := batchMetadata documents
  if embeddings = [] then st
  else ⟨st.vectors ++ embeddings, st.metadata ++ metadata_batch⟩

/-- `FaissVectorStore.clear_collection()`: fresh index, empty metadata. -/
def clear_collection (_st : State) : State := ⟨[], []⟩

/-- One search hit as returned to the orchestrator. -/
structure SearchResult where
  text : List Char
  source : List Char
  chapter : List Char
  verse : List Char
  sanskrit : List Char
  translation : List Char
  explanation : List Char
  score : ℚ
  minfo : List (List Char × List Char)
deriving DecidableEq

/-- Build one result dict from a payload and its score. -/
def mkResult (m : MetaEntry) (score : ℚ) : SearchResult :=
  ⟨m.text, m.source, m.chapter, m.verse, m.sanskrit, m.translation, m.explanation, score, m.minfo⟩

/-- Insert a `(score, index)` hit into a list sorted by decreasing score
(ties by increasing index — a deterministic rendering of the faiss heap
order, irrelevant to the properties proved here). -/
def insertHit (x : ℚ × Nat) : List (ℚ × Nat) → List (ℚ × Nat)
  | [] => [x]
  | y :: ys =>
    if y.1 < x.1 ∨ (y.1 = x.1 ∧ x.2 < y.2) then x :: y :: ys else y :: insertHit x ys

/-- Sort hits by decreasing score. -/
def sortHits (l : List (ℚ × Nat)) : List (ℚ × Nat) := l.foldr insertHit []

/-- `self.index.search(query_vec, k)`: the `k` stored vectors of largest
inner product with the query, best first, with their indices. -/
def indexSearch (vectors : List (List ℚ)) (q : List ℚ) (k : Nat) : List (ℚ × Nat) :=
  (sortHits (vectors.enum.map (fun p => (ip q p.2, p.1)))).take k

/-- Whether the `source_filter` skips this payload:
`if source_filter and metadata.get("source", "") != source_filter` —
a `None` or empty filter is falsy and never skips. -/
def filteredOut (source_filter : Option (List Char)) (m : MetaEntry) : Bool :=
  match source_filter with
  | some f => if f = [] then false else if m.source = f then false else true
  | none => false

/-- The result-collection loop of `search`: hits whose index is inside the
metadata list and whose source passes the filter are appended until
`len(results) >= limit` breaks the loop (`limit` counts the slots left). -/
def collectResults (metadata : List MetaEntry) (source_filter : Option (List Char)) :
    Nat → List (ℚ × Nat) → List SearchResult
  | _, [] => []
  | limit, (score, idx) :: rest =>
    match metadata[idx]? with
    | none => collectResults metadata source_filter limit rest
    | some m =>
      if filteredOut source_filter m then collectResults metadata source_filter limit rest
      else if limit ≤ 1 then [mkResult m score]
      else mkResult m score :: collectResults metadata source_filter (limit - 1) rest

/-- `FaissVectorStore.search(query_embedding, limit, source_filter)`:
empty index short-circuits to `[]`; otherwise normalize the query, fetch
`min(limit * 2, ntotal)` nearest stored vectors by inner product, filter
by source client-side, and cut off at `limit`.  No similarity floor is
applied on this backend. -/
def search (st : State) (query_embedding : List ℚ) (limit : Nat)
    (source_filter : Option (List Char)) : List SearchResult :=
  if st.vectors.length = 0 then []
  else
    let query_vec := l2normalize query_embedding
    let k := min (limit * 2) st.vectors.length
    let hits := indexSearch st.vectors query_vec k
    collectResults st.metadata source_filter limit hits

end FaissVectorStore

/- `services/vector_store.py`: the remote Qdrant-backed store.  The
`qdrant_client` calls are the external boundary; the remote collection is
modelled by its documented point-map semantics (`upsert` replaces the
point with the same id, else appends). -/
namespace VectorStore

/-- One remote point: `PointStruct(id=i, vector=..., payload=...)`. -/
structure Point where
  id : Nat
  vector : List ℚ
  payload : MetaEntry
deriving DecidableEq

/-- Remote collection state plus the availability probe result. -/
structure QdrantState where
  available : Bool
  points : List Point
deriving DecidableEq

/-- The point list built by `for i, doc in enumerate(documents)`:
ids are `startIdx, startIdx+1, ...` (the call site uses 0), the vector is
the RAW `doc["embedding"]` (no client-side normalization), and a document
without an `"embedding"` key raises `KeyError` (modelled as `none`). -/
def buildPoints : List InputDoc → Nat → Option (List Point)
  | [], _ => some []
  | d :: rest, startIdx =>
    match d.embedding with
    | none => none
    | some e => (buildPoints rest (startIdx + 1)).map
        (fun ps => ⟨startIdx, e, mkMetaEntry d⟩ :: ps)

/-- `client.upsert` semantics for a single point: replace the point with
the same id when present, otherwise append. -/
def upsertPoint (pts : List Point) (p : Point) : List Point :=
  if pts.any (fun q => q.id = p.id) then
    pts.map (fun q => if q.id = p.id then p else q)
  else pts ++ [p]

/-- `VectorStore.add_documents(documents)`: no-op when the probe failed;
otherwise build points with per-call ids `0..n-1` and upsert them (the
batching into groups of 100 upserts the same points in the same order, so
the final state is the pointwise fold).  Exceptions propagate (`raise`). -/
def add_documents (st : QdrantState) (documents : List InputDoc) :
    Except (List Char) QdrantState :=
  if !st.available then .ok st
  else
    match buildPoints documents 0 with
    | none => .error (s2l "KeyError: embedding")
    | some pts => .ok ⟨st.available, pts.foldl upsertPoint st.points⟩

/-- The request shape of the `client.search` call issued by
`VectorStore.search`: the limit is forwarded and the configured
`SIMILARITY_THRESHOLD` is passed as `score_threshold`; a truthy
`source_filter` becomes a server-side field condition. -/
structure SearchCall where
  limit : Nat
  score_threshold : ℚ
  hasFilter : Bool
deriving DecidableEq

/-- The search request constructed by `VectorStore.search`. -/
def searchCall (limit : Nat) (source_filter : Option (List Char)) : SearchCall :=
  ⟨limit, Config.SIMILARITY_THRESHOLD,
   match source_filter with | some f => !f.isEmpty | none => false⟩

end VectorStore

/-- Single-pass model of Python `re.sub(r'\s+', ' ', q)`: each maximal
whitespace run becomes one space (`prevSpace` tracks a pending run). -/
def collapseWsAux : Bool → List Char → List Char
  | _, [] => []
  | prevSpace, c :: rest =>
    if pyIsSpace c then
      if prevSpace then collapseWsAux true rest
      else ' ' :: collapseWsAux true rest
    else c :: collapseWsAux false rest

/-- `re.sub(r'\s+', ' ', q)`. -/
def collapseWs (l : List Char) : List Char := collapseWsAux false l

/- `utils/text_utils.py`: TextNormalizer. -/
namespace TextNormalizer

/-- `TextNormalizer.normalize_query(query)`: lowercase, strip, collapse
whitespace (the `if not query` guard returns the empty input unchanged,
which coincides with the pipeline below). -/
def normalize_query (query : List Char) : List Char :=
  collapseWs (pyStrip (pyLower query))

end TextNormalizer

/-- Python `pat in s` for strings: `pat` occurs contiguously in `s`. -/
def startsWithList : List Char → List Char → Bool
  | [], _ => true
  | _ :: _, [] => false
  | p :: ps, c :: cs => p = c && startsWithList ps cs

/-- Python substring test `pat in s`. -/
def containsSub (pat : List Char) : List Char → Bool
  | [] => pat.isEmpty
  | c :: rest => startsWithList pat (c :: rest) || containsSub pat rest

/- `services/rag_service.py`: the retrieval orchestrator. -/
namespace RAGService

/-- The curated domain keyword list of `_is_hindu_text_related`. -/
def hindu_keywords : List (List Char) :=
  ["krishna", "rama", "ram", "sita", "hanuman", "arjuna", "dharma", "karma", "yoga", "meditation",
   "bhagavad", "gita", "ramayana", "mahabharata", "vedas", "upanishads", "sanskrit",
   "moksha", "nirvana", "hindu", "hinduism", "spiritual", "soul", "atman", "brahman",
   "vishnu", "shiva", "ganesha", "devi", "goddess", "god", "divine", "sacred", "holy",
   "temple", "prayer", "mantra", "om", "aum", "patanjali", "sage", "guru", "ashram",
   "verse", "chapter", "shloka", "sutra", "philosophy", "truth", "consciousness",
   "devotion", "worship", "faith", "righteous", "sin", "virtue", "ethics", "duty",
   "life", "death", "rebirth", "purpose", "peace", "happiness", "suffering", "wisdom",
   "dasharatha", "pita", "mata", "father", "mother", "son", "daughter", "brother", "sister",
   "wife", "husband", "bharat", "lakshmana", "shatrughna", "kaikeyi", "kausalya", "sumitra",
   "ravana", "lakshman", "bharata", "mandodari", "surpanakha", "kumbhakarna", "vibhishana",
   "pandava", "kaurava", "draupadi", "yudhishthira", "bhima", "nakula", "sahadeva",
   "duryodhana", "dushasana", "shakuni", "gandhari", "kunti", "madri", "pandu",
   "dhritarashtra"].map s2l

/-- The modern/celebrity rejection list of `_is_hindu_text_related`. -/
def modern_keywords : List (List Char) :=
  ["salman khan", "akshay kumar", "shah rukh khan", "bollywood", "actor", "actress", "movie", "film",
   "cricket", "politics", "politician", "president", "prime minister", "covid", "coronavirus",
   "technology", "computer", "internet", "facebook", "instagram", "whatsapp", "twitter",
   "stock market", "cryptocurrency", "bitcoin", "business", "company", "startup",
   "sports", "football", "tennis", "olympics", "ipl", "match", "score"].map s2l

/-- The Hindi question patterns of `_is_hindu_text_related`. -/
def hindi_patterns : List (List Char) :=
  ["kya naam", "kaun", "kahan", "kaise", "kyun", "kya", "ki", "ka", "ke",
   "naam tha", "naam hai", "kon tha", "kon hai", "kahan tha", "kahan hai"].map s2l

/-- The spiritual/philosophical question patterns of `_is_hindu_text_related`. -/
def spiritual_patterns : List (List Char) :=
  ["what is", "how to", "meaning", "significance", "teaching", "purpose of",
   "why do", "how can", "what does", "tell me about", "explain", "describe",
   "who is", "who was", "where is", "where was", "when did"].map s2l

/-- `RAGService._is_hindu_text_related(question)`: the relevance gate.
A modern-topic keyword forces rejection before any acceptance test runs;
otherwise domain keywords, or Hindi patterns with length over 5, or
spiritual patterns with length over 10, accept. -/
def is_hindu_text_related (question : List Char) : Bool :=
  let question_lower := pyLower question
  let has_hindu_keywords := hindu_keywords.any (fun k => containsSub k question_lower)
  let has_modern_keywords := modern_keywords.any (fun k => containsSub k question_lower)
  if has_modern_keywords then false
  else
    let has_hindi_patterns := hindi_patterns.any (fun k => containsSub k question_lower)
    let has_spiritual_patterns := spiritual_patterns.any (fun k => containsSub k question_lower)
    has_hindu_keywords
      || (has_hindi_patterns && decide (5 < (pyStrip question).length))
      || (has_spiritual_patterns && decide (10 < (pyStrip question).length))

/-- The canned off-topic rejection answer (confidence 0.0 path). -/
def off_topic_answer : List Char := s2l
  "I can only answer questions about Hindu religious texts including the Bhagavad Gita, Ramayana, Mahabharata, and Yoga Sutras. Please ask questions related to these sacred texts, their teachings, characters, or philosophical concepts."

/-- The canned no-information answer (empty search results path). -/
def no_info_answer : List Char := s2l
  "Based on the available texts, I cannot find relevant information to answer this question. Please try rephrasing your question or asking about specific verses or concepts from the Bhagavad Gita or Yoga Sutras."

/-- `APIClient.generate_answer`: the fixed degraded-service string
returned when the external generation endpoint fails. -/
def generation_unavailable_answer : List Char := s2l
  "I\x27m unable to generate an answer right now because the AI service is temporarily unavailable. Please try again in a few moments, or check if there are relevant verses in the database that might help with your question."

/-- `APIClient.generate_answer(question, context)`: a single external
call; `gen` is that boundary (`some a`: the model answer; `none`: the
endpoint failed, yielding the fixed degraded-service message). -/
def generate_answer (gen : Option (List Char)) : List Char :=
  match gen with
  | some a => a
  | none => generation_unavailable_answer

/-- `RAGService._format_context_entry(result)`: header, then the
non-empty Sanskrit/Translation/Commentary lines, then the text. -/
def format_context_entry (r : FaissVectorStore.SearchResult) : List Char :=
  let parts : List (List Char) :=
    (if !r.chapter.isEmpty && !r.verse.isEmpty then
      [s2l "Source: " ++ r.source ++ s2l " - Chapter " ++ r.chapter
        ++ s2l ", Verse " ++ r.verse]
     else [s2l "Source: " ++ r.source])
    ++ (if !r.sanskrit.isEmpty then [s2l "Sanskrit: " ++ r.sanskrit] else [])
    ++ (if !r.translation.isEmpty then [s2l "Translation: " ++ r.translation] else [])
    ++ (if !r.explanation.isEmpty then [s2l "Commentary: " ++ r.explanation] else [])
    ++ [s2l "Text: " ++ r.text]
  List.intercalate (s2l "\n") parts

/-- The RAG response dict `{answer, confidence, context_used?, error?}`. -/
structure RagAnswer where
  answer : List Char
  confidence : ℚ
  context_used : Option Nat
  error : Option (List Char)
deriving DecidableEq

/-- `RAGService.search_and_answer(question, source_filter)` over the local
FAISS backend (the state `st`): relevance gate, query normalization,
hash-based query embedding (`use_api` defaults to False), top-20 search,
top-5 context assembly, external generation (`gen` is that boundary), and
confidence = mean of the top-5 scores.  Nothing on this path raises, so
the enclosing try/except is the identity. -/
def search_and_answer (gen : Option (List Char)) (st : FaissVectorStore.State)
    (question : List Char) (source_filter : Option (List Char)) : RagAnswer :=
  if !is_hindu_text_related question then
    ⟨off_topic_answer, 0, none, none⟩
  else
    let normalized_question := TextNormalizer.normalize_query question
    let question_embedding := APIClient.get_embedding normalized_question false none
    let search_results := FaissVectorStore.search st question_embedding 20 source_filter
    if search_results.isEmpty then ⟨no_info_answer, 0, none, none⟩
    else
      let top5 := search_results.take 5
      let context_parts := top5.map format_context_entry
      let _context := List.intercalate (s2l "\n\n---\n\n") context_parts
      let answer := generate_answer gen
      let avg_confidence :=
        (top5.map FaissVectorStore.SearchResult.score).sum / (top5.length : ℚ)
      ⟨answer, avg_confidence, some context_parts.length, none⟩

end RAGService

/-! ## Lemmas and claim theorems -/

/- The rational operations are sealed in the standard library; evaluating
the embedded pipeline on concrete inputs (witnesses and counterexamples)
needs them unfolded. -/
unseal Rat.add Rat.mul Rat.sub Rat.inv

namespace TextChunker

theorem chunkEnd_gt (ck : TextChunker) (text : List Char) (start : Nat)
    (hsz : 0 < ck.chunk_size) : start < ck.chunkEnd text start := by
  simp only [chunkEnd]
  split_ifs with h1 h2
  · exact h2
  · omega
  · omega

theorem lt_nextStart (ck : TextChunker) (text : List Char) (start : Nat) :
    start < ck.nextStart text start :=
  Nat.lt_of_lt_of_le (Nat.lt_succ_self start) (Nat.le_max_left _ _)

theorem nextStart_le_chunkEnd (ck : TextChunker) (text : List Char) (start : Nat)
    (hsz : 0 < ck.chunk_size) : ck.nextStart text start ≤ ck.chunkEnd text start :=
  Nat.max_le.mpr ⟨ck.chunkEnd_gt text start hsz, Nat.sub_le _ _⟩

theorem chunkLoop_of_ge (ck : TextChunker) (text : List Char) (f start : Nat)
    (h : text.length ≤ start) : chunkLoop ck text f start = [] := by
  cases f with
  | zero => rfl
  | succ g => simp only [chunkLoop]; rw [if_neg (by omega)]

theorem chunkLoop_fuel_irrel (ck : TextChunker) (text : List Char) :
    ∀ (f₁ f₂ start : Nat), text.length ≤ start + f₁ → text.length ≤ start + f₂ →
      chunkLoop ck text f₁ start = chunkLoop ck text f₂ start := by
  intro f₁
  induction f₁ with
  | zero =>
    intro f₂ start h1 _
    rw [chunkLoop_of_ge ck text 0 start (by omega), chunkLoop_of_ge ck text f₂ start (by omega)]
  | succ f ih =>
    intro f₂ start h1 h2
    by_cases hs : start < text.length
    · cases f₂ with
      | zero => omega
      | succ g =>
        have hnext := ck.lt_nextStart text start
        have hrec : chunkLoop ck text f (ck.nextStart text start)
            = chunkLoop ck text g (ck.nextStart text start) := ih g _ (by omega) (by omega)
        simp only [chunkLoop]
        rw [if_pos hs, if_pos hs, hrec]
    · rw [chunkLoop_of_ge ck text _ start (by omega),
          chunkLoop_of_ge ck text _ start (by omega)]

end TextChunker

/-- C8: `TextChunker.chunk_text` terminates on every input: the next
window start `max(start + 1, end - overlap)` strictly exceeds the previous
start in every loop iteration, and consequently the loop is insensitive to
any sufficient fuel bound (the fuel `text.length` used by `chunk_text` is
one such bound), i.e. the while-loop reaches its exit condition. -/
theorem chunk_progress_and_termination (ck : TextChunker) (text : List Char)
    (start : Nat) :
    start < ck.nextStart text start ∧
    ∀ f₁ f₂ : Nat, text.length ≤ start + f₁ → text.length ≤ start + f₂ →
      TextChunker.chunkLoop ck text f₁ start = TextChunker.chunkLoop ck text f₂ start :=
  ⟨ck.lt_nextStart text start,
   fun f₁ f₂ h1 h2 => ck.chunkLoop_fuel_irrel text f₁ f₂ start h1 h2⟩

/-- C8 witness: forward progress and fuel-insensitivity at a concrete
chunker, text and fuel pair. -/
theorem chunk_progress_and_termination_witness :
    0 < TextChunker.nextStart defaultTextChunker (s2l "om namah") 0 ∧
    TextChunker.chunkLoop defaultTextChunker (s2l "om namah") 9 0
      = TextChunker.chunkLoop defaultTextChunker (s2l "om namah") 23 0 :=
  ⟨(chunk_progress_and_termination defaultTextChunker (s2l "om namah") 0).1,
   (chunk_progress_and_termination defaultTextChunker (s2l "om namah") 0).2 9 23
     (by decide) (by decide)⟩

/-- Short non-empty texts are returned whole (shared helper). -/
theorem chunk_text_of_short (ck : TextChunker) (text : List Char)
    (hne : text ≠ []) (hlt : text.length < ck.chunk_size) :
    ck.chunk_text text = [text] := by
  simp [TextChunker.chunk_text, hne, hlt]

/-- C7 (amended): for every NON-empty text shorter than the configured
chunk size, `chunk_text` returns exactly the one-element sequence holding
the text; the empty text instead yields the empty sequence. -/
theorem chunk_text_short (ck : TextChunker) (text : List Char)
    (hne : text ≠ []) (hlt : text.length < ck.chunk_size) :
    ck.chunk_text text = [text] :=
  chunk_text_of_short ck text hne hlt

/-- C7 witness: a two-character text with the default 400-character chunker. -/
theorem chunk_text_short_witness :
    defaultTextChunker.chunk_text (s2l "om") = [s2l "om"] :=
  chunk_text_short defaultTextChunker (s2l "om") (by decide) (by decide)

/-- C7 counterexample: the empty text is shorter than the configured chunk
size, yet `chunk_text` returns the empty sequence, not the one-element
sequence containing the (empty) text. -/
theorem chunk_text_empty_cex :
    ([] : List Char).length < defaultTextChunker.chunk_size ∧
    defaultTextChunker.chunk_text [] = [] ∧
    defaultTextChunker.chunk_text [] ≠ [[]] := by
  refine ⟨by decide, by decide, by decide⟩

theorem mem_dropWhile_of_mem {p : Char → Bool} {x : Char} :
    ∀ {l : List Char}, x ∈ l → p x = false → x ∈ l.dropWhile p := by
  intro l
  induction l with
  | nil => intro h _; cases h
  | cons c rest ih =>
    intro hmem hx
    rw [List.dropWhile_cons]
    by_cases hc : p c = true
    · rw [if_pos hc]
      rcases List.mem_cons.mp hmem with h | h
      · subst h; rw [hx] at hc; cases hc
      · exact ih h hx
    · rw [if_neg hc]; exact hmem

theorem mem_pyStrip {x : Char} {l : List Char} (hmem : x ∈ l)
    (hx : pyIsSpace x = false) : x ∈ pyStrip l := by
  unfold pyStrip
  rw [List.mem_reverse]
  refine mem_dropWhile_of_mem ?_ hx
  rw [List.mem_reverse]
  exact mem_dropWhile_of_mem hmem hx

theorem mem_slice (l : List Char) (s e i : Nat) (hsi : s ≤ i) (hie : i < e)
    (hil : i < l.length) : l[i] ∈ slice s e l := by
  have hj : i - s < e - s := by omega
  have hdrop : (l.drop s)[i - s]? = some l[i] := by
    rw [List.getElem?_drop]
    have : s + (i - s) = i := by omega
    rw [this, List.getElem?_eq_getElem hil]
  have : (slice s e l)[i - s]? = some l[i] := by
    rw [slice, List.getElem?_take, if_pos hj]
    exact hdrop
  exact List.getElem?_mem this

theorem chunkLoop_coverage (ck : TextChunker) (text : List Char)
    (hsz : 0 < ck.chunk_size) :
    ∀ (fuel start i : Nat) (hi : i < text.length), start ≤ i →
      text.length ≤ start + fuel → pyIsSpace text[i] = false →
      ∃ c ∈ TextChunker.chunkLoop ck text fuel start, text[i] ∈ c := by
  intro fuel
  induction fuel with
  | zero => intro start i hi h1 h2 h3; omega
  | succ f ih =>
    intro start i hi h1 h2 h3
    have hs : start < text.length := by omega
    have he := ck.chunkEnd_gt text start hsz
    simp only [TextChunker.chunkLoop]
    rw [if_pos hs]
    by_cases hie : i < ck.chunkEnd text start
    · have hmem : text[i] ∈ slice start (ck.chunkEnd text start) text :=
        mem_slice text start _ i h1 hie hi
      have hmem2 : text[i] ∈ pyStrip (slice start (ck.chunkEnd text start) text) :=
        mem_pyStrip hmem h3
      have hne : pyStrip (slice start (ck.chunkEnd text start) text) ≠ [] :=
        List.ne_nil_of_mem hmem2
      rw [if_neg hne]
      exact ⟨_, List.mem_cons_self _ _, hmem2⟩
    · have hnext : ck.nextStart text start ≤ i := by
        have := ck.nextStart_le_chunkEnd text start hsz
        omega
      obtain ⟨c, hc, hcmem⟩ := ih (ck.nextStart text start) i hi hnext
        (by have := ck.lt_nextStart text start; omega) h3
      by_cases hchunk : pyStrip (slice start (ck.chunkEnd text start) text) = []
      · rw [if_pos hchunk]; exact ⟨c, hc, hcmem⟩
      · rw [if_neg hchunk]; exact ⟨c, List.mem_cons_of_mem _ hc, hcmem⟩

/-- C1 (amended): every NON-whitespace character of the input text appears
in at least one chunk produced by `chunk_text`; characters that are
whitespace may be dropped, because each window is `strip`ped and windows
stripped to emptiness are discarded.  The hypotheses `0 < chunk_size` and
`overlap ≤ chunk_size` hold for the configured values (400, 100) and keep
the natural-number index model faithful to Python slicing. -/
theorem chunk_text_coverage (ck : TextChunker) (hsz : 0 < ck.chunk_size)
    (_hov : ck.overlap ≤ ck.chunk_size) (text : List Char) (i : Nat)
    (hi : i < text.length) (hns : pyIsSpace text[i] = false) :
    ∃ c ∈ ck.chunk_text text, text[i] ∈ c := by
  by_cases h0 : text = []
  · subst h0; simp at hi
  · by_cases hlt : text.length < ck.chunk_size
    · rw [chunk_text_of_short ck text h0 hlt]
      exact ⟨text, List.mem_singleton.mpr rfl, List.getElem_mem hi⟩
    · simp only [TextChunker.chunk_text]
      rw [if_neg h0, if_neg hlt]
      exact chunkLoop_coverage ck text hsz text.length 0 i hi (Nat.zero_le i)
        (by omega) hns

/-- C1 witness: the character at position 0 of a concrete text is kept in
a chunk of the default chunker. -/
theorem chunk_text_coverage_witness :
    ∃ c ∈ defaultTextChunker.chunk_text (s2l "dharma"), 'd' ∈ c :=
  chunk_text_coverage defaultTextChunker (by decide) (by decide) (s2l "dharma") 0
    (by decide) (by decide)

/-- C1 counterexample: for the 400-space text (length equal to the default
chunk size), every window strips to the empty chunk and is discarded, so
`chunk_text` returns no chunks at all and the claim "every character of
the original text appears in at least one chunk" fails at position 0. -/
theorem chunk_text_coverage_cex :
    ∃ (t : List Char) (i : Nat) (hi : i < t.length),
      ∀ c ∈ defaultTextChunker.chunk_text t, t[i] ∉ c := by
  refine ⟨List.replicate 400 ' ', 0, by decide, ?_⟩
  intro c hc
  have h : defaultTextChunker.chunk_text (List.replicate 400 ' ') = [] := by decide
  rw [h] at hc
  cases hc

namespace FaissVectorStore

theorem collectResults_length_le (metadata : List MetaEntry)
    (source_filter : Option (List Char)) :
    ∀ (hits : List (ℚ × Nat)) (limit : Nat), 1 ≤ limit →
      (collectResults metadata source_filter limit hits).length ≤ limit := by
  intro hits
  induction hits with
  | nil => intro limit _; simp [collectResults]
  | cons hit rest ih =>
    intro limit hlim
    obtain ⟨score, idx⟩ := hit
    simp only [collectResults]
    cases hidx : metadata[idx]? with
    | none => exact ih limit hlim
    | some m =>
      simp only
      by_cases hf : filteredOut source_filter m = true
      · rw [if_pos hf]; exact ih limit hlim
      · rw [if_neg hf]
        by_cases h1 : limit ≤ 1
        · rw [if_pos h1]; simpa using hlim
        · rw [if_neg h1]
          have := ih (limit - 1) (by omega)
          simp only [List.length_cons]
          omega

/-- C2 (amended): `search` returns at most `limit` results on the local
FAISS backend, and searching an empty index returns the empty sequence
without error; the configured similarity floor, however, is only requested
from the remote Qdrant backend (`score_threshold` in its search call) —
the FAISS backend applies no similarity floor, so its results may score
below `SIMILARITY_THRESHOLD` (see the counterexample). -/
theorem search_limit_and_empty (st : State) (q : List ℚ) (limit : Nat)
    (source_filter : Option (List Char)) :
    (search st q limit source_filter).length ≤ limit ∧
    (st.vectors = [] → search st q limit source_filter = []) ∧
    (VectorStore.searchCall limit source_filter).score_threshold
      = Config.SIMILARITY_THRESHOLD := by
  refine ⟨?_, ?_, rfl⟩
  · by_cases h0 : st.vectors.length = 0
    · simp [search, h0]
    · simp only [search, if_neg h0]
      by_cases hlim : 1 ≤ limit
      · exact collectResults_length_le st.metadata source_filter _ limit hlim
      · have hl : limit = 0 := by omega
        subst hl
        simp only [Nat.zero_mul, Nat.zero_min, indexSearch, List.take_zero]
        exact Nat.le_refl 0
  · intro hv
    simp [search, hv]

/-- C2 witness: the bound and the empty-index case at concrete inputs. -/
theorem search_limit_and_empty_witness :
    (search ⟨[], []⟩ [1] 5 none).length ≤ 5 ∧ search ⟨[], []⟩ [1] 5 none = [] :=
  ⟨(search_limit_and_empty ⟨[], []⟩ [1] 5 none).1,
   (search_limit_and_empty ⟨[], []⟩ [1] 5 none).2.1 rfl⟩

/-- C2 counterexample: on the FAISS backend a stored vector orthogonal to
the query is returned with score 0, strictly below the configured
similarity floor 0.65 — `search` enforces no floor there. -/
theorem search_below_floor_cex :
    ∃ r ∈ search ⟨[[1, 0]], [⟨s2l "t", s2l "gita", [], [], [], [], [], []⟩]⟩
      [0, 1] 10 none, r.score < Config.SIMILARITY_THRESHOLD := by decide

end FaissVectorStore

theorem sumSq_nil : sumSq [] = 0 := rfl

theorem sumSq_cons (x : ℚ) (t : List ℚ) : sumSq (x :: t) = x * x + sumSq t := by
  simp [sumSq]

theorem sumSq_map_div (v : List ℚ) (r : ℚ) :
    sumSq (v.map (fun x => x / r)) = sumSq v / (r * r) := by
  induction v with
  | nil => simp [sumSq]
  | cons x t ih =>
    rw [List.map_cons, sumSq_cons, sumSq_cons, ih, div_mul_div_comm, div_add_div_same]

/-- When the norm is nonzero and its square root is exact, the normalized
vector has unit norm (shared by the C4 and C10 theorems). -/
theorem sumSq_l2normalize (v : List ℚ) (hv : sumSq v ≠ 0)
    (hr : ratSqrt (sumSq v) * ratSqrt (sumSq v) = sumSq v) :
    sumSq (l2normalize v) = 1 := by
  rw [l2normalize, sumSq_map_div, hr, div_self hv]

namespace FaissVectorStore

theorem mem_batchVectors {v : List ℚ} :
    ∀ {docs : List InputDoc}, v ∈ batchVectors docs →
      ∃ d ∈ docs, ∃ e, d.embedding = some e ∧ v = l2normalize e := by
  intro docs
  induction docs with
  | nil => intro h; cases h
  | cons d rest ih =>
    intro h
    rw [batchVectors] at h
    cases hd : d.embedding with
    | none =>
      rw [hd] at h
      obtain ⟨d', hd', he⟩ := ih h
      exact ⟨d', List.mem_cons_of_mem _ hd', he⟩
    | some e =>
      rw [hd] at h
      rcases List.mem_cons.mp h with h | h
      · exact ⟨d, List.mem_cons_self _ _, e, hd, h⟩
      · obtain ⟨d', hd', he⟩ := ih h
        exact ⟨d', List.mem_cons_of_mem _ hd', he⟩

end FaissVectorStore

namespace VectorStore

theorem buildPoints_ids :
    ∀ (docs : List InputDoc) (k : Nat) (pts : List Point),
      buildPoints docs k = some pts → pts.map Point.id = List.range' k docs.length := by
  intro docs
  induction docs with
  | nil =>
    intro k pts h
    rw [buildPoints] at h
    cases h
    rfl
  | cons d rest ih =>
    intro k pts h
    rw [buildPoints] at h
    cases hd : d.embedding with
    | none => rw [hd] at h; cases h
    | some e =>
      rw [hd] at h
      obtain ⟨ps, hps, hcons⟩ := Option.map_eq_some'.mp h
      subst hcons
      rw [List.map_cons, ih (k + 1) ps hps]
      rfl

theorem buildPoints_vectors :
    ∀ (docs : List InputDoc) (k : Nat) (pts : List Point),
      buildPoints docs k = some pts →
      pts.map Point.vector = docs.filterMap InputDoc.embedding := by
  intro docs
  induction docs with
  | nil =>
    intro k pts h
    rw [buildPoints] at h
    cases h
    rfl
  | cons d rest ih =>
    intro k pts h
    rw [buildPoints] at h
    cases hd : d.embedding with
    | none => rw [hd] at h; cases h
    | some e =>
      rw [hd] at h
      obtain ⟨ps, hps, hcons⟩ := Option.map_eq_some'.mp h
      subst hcons
      rw [List.map_cons, ih (k + 1) ps hps, List.filterMap_cons, hd]

end VectorStore

/-- C4 (amended): on the local FAISS backend every vector that
`add_documents` stores beyond the pre-existing ones is the L2
normalization `e / norm(e)` of an input embedding `e` (of unit norm
whenever the norm is nonzero and exactly representable); the Qdrant
backend, by contrast, forwards the RAW embeddings to the remote service
without client-side normalization. -/
theorem add_documents_normalization (st : FaissVectorStore.State)
    (docs : List InputDoc) :
    (∀ v ∈ (FaissVectorStore.add_documents st docs).vectors,
      v ∈ st.vectors ∨ ∃ d ∈ docs, ∃ e, d.embedding = some e ∧ v = l2normalize e) ∧
    (∀ v : List ℚ, sumSq v ≠ 0 → ratSqrt (sumSq v) * ratSqrt (sumSq v) = sumSq v →
      sumSq (l2normalize v) = 1) ∧
    (∀ pts, VectorStore.buildPoints docs 0 = some pts →
      pts.map VectorStore.Point.vector = docs.filterMap InputDoc.embedding) := by
  refine ⟨?_, fun v hv hr => sumSq_l2normalize v hv hr,
    fun pts h => VectorStore.buildPoints_vectors docs 0 pts h⟩
  intro v hv
  rw [FaissVectorStore.add_documents] at hv
  by_cases hb : FaissVectorStore.batchVectors docs = []
  · rw [if_pos hb] at hv
    exact Or.inl hv
  · rw [if_neg hb] at hv
    rcases List.mem_append.mp hv with h | h
    · exact Or.inl h
    · exact Or.inr (FaissVectorStore.mem_batchVectors h)

/-- C4 witness: an exactly-normalizable embedding reaches unit norm, and
the point batch built for the remote backend carries the raw embedding. -/
theorem add_documents_normalization_witness :
    sumSq (l2normalize [(3 : ℚ), 4]) = 1 ∧
    ([(⟨0, [2, 0], ⟨s2l "t", s2l "g", [], [], [], [], [], []⟩⟩ : VectorStore.Point)].map
        VectorStore.Point.vector
      = [⟨some [2, 0], s2l "t", s2l "g", [], [], [], [], [], []⟩].filterMap
          InputDoc.embedding) :=
  ⟨(add_documents_normalization ⟨[], []⟩ []).2.1 [3, 4] (by decide) (by decide),
   (add_documents_normalization ⟨[], []⟩
      [⟨some [2, 0], s2l "t", s2l "g", [], [], [], [], [], []⟩]).2.2 _ rfl⟩

/-- C4 counterexample: the Qdrant backend stores the raw embedding
`[2, 0]`, whose squared norm is 4, not 1 — it is not L2-normalized to unit
norm before storage. -/
theorem qdrant_raw_vector_cex :
    VectorStore.add_documents ⟨true, []⟩
        [⟨some [2, 0], s2l "t", s2l "g", [], [], [], [], [], []⟩]
      = Except.ok ⟨true, [⟨0, [2, 0], ⟨s2l "t", s2l "g", [], [], [], [], [], []⟩⟩]⟩ ∧
    sumSq [(2 : ℚ), 0] ≠ 1 :=
  ⟨rfl, by decide⟩

/-- C5 (amended): on the local FAISS backend `add_documents` is
append-only — every entry stored before the call is left untouched at its
position (and only `clear_collection` resets the store); on the Qdrant
backend, however, `add_documents` assigns point ids `0..n-1` on EVERY
call, so a later call upserts over those ids instead of appending. -/
theorem add_documents_append_only (st : FaissVectorStore.State)
    (docs : List InputDoc) :
    (∀ i, i < st.vectors.length →
      (FaissVectorStore.add_documents st docs).vectors[i]? = st.vectors[i]?) ∧
    (∀ i, i < st.metadata.length →
      (FaissVectorStore.add_documents st docs).metadata[i]? = st.metadata[i]?) ∧
    st.vectors.length ≤ (FaissVectorStore.add_documents st docs).vectors.length ∧
    (∀ pts, VectorStore.buildPoints docs 0 = some pts →
      pts.map VectorStore.Point.id = List.range docs.length) ∧
    (FaissVectorStore.clear_collection st).vectors = [] ∧
    (FaissVectorStore.clear_collection st).metadata = [] := by
  refine ⟨?_, ?_, ?_, ?_, rfl, rfl⟩
  · intro i hi
    rw [FaissVectorStore.add_documents]
    by_cases hb : FaissVectorStore.batchVectors docs = []
    · rw [if_pos hb]
    · rw [if_neg hb, List.getElem?_append, if_pos hi]
  · intro i hi
    rw [FaissVectorStore.add_documents]
    by_cases hb : FaissVectorStore.batchVectors docs = []
    · rw [if_pos hb]
    · rw [if_neg hb, List.getElem?_append, if_pos hi]
  · rw [FaissVectorStore.add_documents]
    by_cases hb : FaissVectorStore.batchVectors docs = []
    · rw [if_pos hb]
    · rw [if_neg hb]
      simp
  · intro pts h
    rw [VectorStore.buildPoints_ids docs 0 pts h, List.range_eq_range']

/-- C5 witness: a pre-existing FAISS entry is untouched by an append, and
the per-call Qdrant ids of a two-document batch are `[0, 1]`. -/
theorem add_documents_append_only_witness :
    (FaissVectorStore.add_documents
        ⟨[[(1 : ℚ)]], [⟨s2l "old", s2l "g", [], [], [], [], [], []⟩]⟩
        [⟨some [2, 0], s2l "t", s2l "g", [], [], [], [], [], []⟩]).vectors[0]?
      = [[(1 : ℚ)]][0]? ∧
    ([(⟨0, [2, 0], ⟨s2l "t", s2l "g", [], [], [], [], [], []⟩⟩ : VectorStore.Point),
      ⟨1, [3, 0], ⟨s2l "u", s2l "g", [], [], [], [], [], []⟩⟩].map VectorStore.Point.id
      = List.range 2) :=
  ⟨(add_documents_append_only ⟨[[(1 : ℚ)]], [⟨s2l "old", s2l "g", [], [], [], [], [], []⟩]⟩
      [⟨some [2, 0], s2l "t", s2l "g", [], [], [], [], [], []⟩]).1 0 (by decide),
   (add_documents_append_only ⟨[], []⟩
      [⟨some [2, 0], s2l "t", s2l "g", [], [], [], [], [], []⟩,
       ⟨some [3, 0], s2l "u", s2l "g", [], [], [], [], [], []⟩]).2.2.2.1 _ rfl⟩

/-- C5 counterexample: on the Qdrant backend a second `add_documents`
call reuses id 0, so the previously stored point is overwritten (updated),
not preserved — `add_documents` is not append-only there. -/
theorem qdrant_upsert_overwrite_cex :
    VectorStore.add_documents
        ⟨true, [⟨0, [1, 0], ⟨s2l "old", s2l "gita", [], [], [], [], [], []⟩⟩]⟩
        [⟨some [0, 1], s2l "new", s2l "gita", [], [], [], [], [], []⟩]
      = Except.ok ⟨true, [⟨0, [0, 1], ⟨s2l "new", s2l "gita", [], [], [], [], [], []⟩⟩]⟩ ∧
    (⟨0, [1, 0], ⟨s2l "old", s2l "gita", [], [], [], [], [], []⟩⟩ : VectorStore.Point) ∉
      [(⟨0, [0, 1], ⟨s2l "new", s2l "gita", [], [], [], [], [], []⟩⟩ : VectorStore.Point)] :=
  ⟨rfl, by decide⟩

/-- C10: `FaissVectorStore.add_documents` normalizes with no guard against
a zero norm: a document whose embedding has L2 norm zero is still accepted
(no error is raised — the vector count grows) and the stored vector is the
componentwise division of the embedding by zero, which in IEEE arithmetic
is NaN in every component (the exact model totalizes `x / 0`); the
normalization yields a unit vector exactly under the precondition that the
norm is nonzero (and exactly representable). -/
theorem add_documents_zero_norm_unguarded (st : FaissVectorStore.State)
    (d : InputDoc) (e : List ℚ) (he : d.embedding = some e) (hz : sumSq e = 0) :
    (FaissVectorStore.add_documents st [d]).vectors
      = st.vectors ++ [e.map (fun x => x / 0)] ∧
    (FaissVectorStore.add_documents st [d]).vectors.length
      = st.vectors.length + 1 ∧
    ∀ v : List ℚ, sumSq v ≠ 0 → ratSqrt (sumSq v) * ratSqrt (sumSq v) = sumSq v →
      sumSq (l2normalize v) = 1 := by
  have hr : ratSqrt (sumSq e) = 0 := by rw [hz]; decide
  have hbatch : FaissVectorStore.batchVectors [d] = [e.map (fun x => x / 0)] := by
    rw [FaissVectorStore.batchVectors, he]
    simp only [l2normalize, hr, FaissVectorStore.batchVectors]
  have hne : FaissVectorStore.batchVectors [d] ≠ [] := by rw [hbatch]; simp
  constructor
  · rw [FaissVectorStore.add_documents, if_neg hne, hbatch]
  constructor
  · rw [FaissVectorStore.add_documents, if_neg hne, hbatch]
    simp
  · exact fun v hv hrr => sumSq_l2normalize v hv hrr

/-- C10 witness: the all-zero embedding `[0, 0]` is stored as `[0/0, 0/0]`
without an error, and a nonzero-norm vector does normalize to unit norm. -/
theorem add_documents_zero_norm_unguarded_witness :
    (FaissVectorStore.add_documents ⟨[], []⟩
        [⟨some [0, 0], s2l "z", s2l "g", [], [], [], [], [], []⟩]).vectors
      = [] ++ [[(0 : ℚ), 0].map (fun x => x / 0)] ∧
    sumSq (l2normalize [(3 : ℚ), 4]) = 1 :=
  ⟨(add_documents_zero_norm_unguarded ⟨[], []⟩
      ⟨some [0, 0], s2l "z", s2l "g", [], [], [], [], [], []⟩ [0, 0] rfl (by decide)).1,
   (add_documents_zero_norm_unguarded ⟨[], []⟩
      ⟨some [0, 0], s2l "z", s2l "g", [], [], [], [], [], []⟩ [0, 0] rfl (by decide)).2.2
      [3, 4] (by decide) (by decide)⟩

/-- The embedded MD5 matches the RFC 1321 test vector for the empty message. -/
theorem md5_test_vector_empty :
    MD5.hexdigest (utf8Encode (s2l ""))
      = s2l "d41d8cd98f00b204e9800998ecf8427e" := by decide

/-- The embedded MD5 matches the RFC 1321 test vector for "abc". -/
theorem md5_test_vector_abc :
    MD5.hexdigest (utf8Encode (s2l "abc"))
      = s2l "900150983cd24fb0d6963f7d28e17f72" := by decide

theorem md5Bytes_length (m : List Nat) : (MD5.md5Bytes m).length = 16 := by
  rw [MD5.md5Bytes]
  simp [MD5.wordLEBytes]

theorem flatten_map_byteHex_length :
    ∀ l : List Nat, (List.flatten (l.map MD5.byteHex)).length = 2 * l.length := by
  intro l
  induction l with
  | nil => rfl
  | cons b rest ih =>
    rw [List.map_cons, List.flatten_cons, List.length_append, ih]
    simp [MD5.byteHex]
    omega

theorem hexdigest_length (m : List Nat) : (MD5.hexdigest m).length = 32 := by
  rw [MD5.hexdigest, flatten_map_byteHex_length, md5Bytes_length]

theorem hexPairVals_length :
    ∀ l : List Char, (APIClient.hexPairVals l).length = (l.length + 1) / 2
  | [] => rfl
  | [_] => by simp [APIClient.hexPairVals]
  | c1 :: c2 :: rest => by
    rw [APIClient.hexPairVals, List.length_cons, hexPairVals_length rest]
    simp only [List.length_cons]
    omega

theorem padEmbedding_length :
    ∀ (fuel : Nat) (l : List ℚ), 0 < l.length → l.length ≤ 1024 →
      1024 ≤ l.length * 2 ^ fuel → (APIClient.padEmbedding fuel l).length = 1024 := by
  intro fuel
  induction fuel with
  | zero =>
    intro l h1 h2 h3
    rw [APIClient.padEmbedding]
    simp at h3
    omega
  | succ f ih =>
    intro l h1 h2 h3
    rw [APIClient.padEmbedding]
    by_cases hlt : l.length < 1024
    · rw [if_pos hlt]
      have hm : (l ++ l.take (min l.length (1024 - l.length))).length
          = l.length + min l.length (1024 - l.length) := by
        rw [List.length_append, List.length_take]
        omega
      apply ih
      · omega
      · omega
      · rw [hm]
        have hp : 0 < 2 ^ f := Nat.pos_pow_of_pos f (by omega)
        have hq : l.length * 2 ^ (f + 1) = l.length * 2 ^ f * 2 := by
          rw [Nat.pow_succ, Nat.mul_assoc]
        by_cases hc : l.length ≤ 1024 - l.length
        · have : (l.length + min l.length (1024 - l.length)) * 2 ^ f
              = l.length * 2 ^ f * 2 := by
            rw [Nat.min_eq_left hc]
            ring
          omega
        · have hmin : min l.length (1024 - l.length) = 1024 - l.length :=
            Nat.min_eq_right (by omega)
          rw [hmin]
          have h1024 : l.length + (1024 - l.length) = 1024 := by omega
          rw [h1024]
          exact Nat.le_mul_of_pos_right 1024 hp
    · rw [if_neg hlt]
      omega

/-- C9: for every text, the embedding produced by `get_embedding` with
`use_api=False` (the deterministic hash-based fallback path) has length
exactly 1024: the 32-character MD5 hex digest yields 16 base values, the
cyclic-repetition padding doubles up to exactly 1024, and the final
truncation guarantees the bound. -/
theorem get_embedding_length (text : List Char) (api : Option (List ℚ)) :
    (APIClient.get_embedding text false api).length = 1024 := by
  simp only [APIClient.get_embedding, Bool.not_false, if_true]
  rw [APIClient.get_embedding_openrouter]
  have h2 : (APIClient.hexPairVals (MD5.hexdigest (utf8Encode text))).length = 16 := by
    rw [hexPairVals_length, hexdigest_length]
  have h3 : (APIClient.padEmbedding 1024
      (APIClient.hexPairVals (MD5.hexdigest (utf8Encode text)))).length = 1024 := by
    apply padEmbedding_length
    · omega
    · omega
    · rw [h2]
      calc (1024 : Nat) = 16 * 2 ^ 6 := by norm_num
        _ ≤ 16 * 2 ^ 1024 :=
          Nat.mul_le_mul_left 16 (Nat.pow_le_pow_right (by omega) (by omega))
  rw [List.length_take, h3]
  rfl

theorem list_sum_nonneg_of_nonneg :
    ∀ l : List ℚ, (∀ x ∈ l, 0 ≤ x) → 0 ≤ l.sum := by
  intro l
  induction l with
  | nil => intro _; simp
  | cons x t ih =>
    intro h
    rw [List.sum_cons]
    have hx := h x (List.mem_cons_self x t)
    have ht := ih (fun y hy => h y (List.mem_cons_of_mem x hy))
    linarith

theorem list_sum_le_length :
    ∀ l : List ℚ, (∀ x ∈ l, x ≤ 1) → l.sum ≤ (l.length : ℚ) := by
  intro l
  induction l with
  | nil => intro _; simp
  | cons x t ih =>
    intro h
    rw [List.sum_cons, List.length_cons]
    have hx := h x (List.mem_cons_self x t)
    have ht := ih (fun y hy => h y (List.mem_cons_of_mem x hy))
    push_cast
    linarith

/-- The arithmetic mean of a nonempty list of rationals in `[0, 1]` lies
in `[0, 1]` (shared bound for the C3 theorem). -/
theorem list_mean_bounds (l : List ℚ) (hne : l ≠ [])
    (hb : ∀ x ∈ l, 0 ≤ x ∧ x ≤ 1) :
    0 ≤ l.sum / (l.length : ℚ) ∧ l.sum / (l.length : ℚ) ≤ 1 := by
  have hlen : 0 < (l.length : ℚ) := by
    have := List.length_pos.mpr hne
    exact_mod_cast this
  constructor
  · exact div_nonneg (list_sum_nonneg_of_nonneg l (fun x hx => (hb x hx).1)) (le_of_lt hlen)
  · rw [div_le_one hlen]
    exact list_sum_le_length l (fun x hx => (hb x hx).2)

/-- The confidence returned on the non-short-circuit path is the mean of
the top-5 (or fewer) scores (shared derivation for the C3 theorem and its
counterexample). -/
theorem confidence_eq_mean (gen : Option (List Char))
    (st : FaissVectorStore.State) (question : List Char) (sf : Option (List Char))
    (R : List FaissVectorStore.SearchResult)
    (hR : R = FaissVectorStore.search st
      (APIClient.get_embedding (TextNormalizer.normalize_query question) false none)
      20 sf)
    (hg : RAGService.is_hindu_text_related question = true)
    (hne : R ≠ []) :
    (RAGService.search_and_answer gen st question sf).confidence
      = ((R.take 5).map FaissVectorStore.SearchResult.score).sum
        / (((R.take 5).map FaissVectorStore.SearchResult.score).length : ℚ) := by
  rw [RAGService.search_and_answer, hg]
  simp only [Bool.not_true, Bool.false_eq_true, if_false]
  rw [← hR]
  have hie : R.isEmpty = false := by
    cases R with
    | nil => exact absurd rfl hne
    | cons a t => rfl
  rw [hie]
  simp only [Bool.false_eq_true, if_false, List.length_map]

theorem ip_cons (x y : ℚ) (u w : List ℚ) :
    ip (x :: u) (y :: w) = x * y + ip u w := by
  simp [ip]

theorem zipWith_mul_replicate_zero_sum :
    ∀ (u : List ℚ) (n : Nat),
      (List.zipWith (fun a b => a * b) u (List.replicate n 0)).sum = 0 := by
  intro u
  induction u with
  | nil => intro n; simp
  | cons x t ih =>
    intro n
    cases n with
    | zero => simp
    | succ m =>
      rw [List.replicate_succ, List.zipWith_cons_cons, List.sum_cons, mul_zero, zero_add]
      exact ih m

theorem ip_replicate_zero (u : List ℚ) (n : Nat) :
    ip u (List.replicate n 0) = 0 :=
  zipWith_mul_replicate_zero_sum u n

theorem sumSq_nonneg : ∀ v : List ℚ, 0 ≤ sumSq v := by
  intro v
  induction v with
  | nil => simp [sumSq]
  | cons x t ih =>
    rw [sumSq_cons]
    have := mul_self_nonneg x
    linarith

theorem sumSq_cons_pos (x : ℚ) (t : List ℚ) (hx : x ≠ 0) : 0 < sumSq (x :: t) := by
  rw [sumSq_cons]
  have h1 : 0 < x * x := mul_self_pos.mpr hx
  have h2 := sumSq_nonneg t
  linarith

theorem natSqrtIter_ge_one :
    ∀ (fuel n g : Nat), 2 ≤ n → 1 ≤ g → 1 ≤ natSqrtIter fuel n g := by
  intro fuel
  induction fuel with
  | zero => intro n g _ hg; exact hg
  | succ f ih =>
    intro n g hn hg
    simp only [natSqrtIter]
    by_cases hlt : (g + n / g) / 2 < g
    · rw [if_pos hlt]
      apply ih _ _ hn
      rcases Nat.lt_or_ge g 2 with h1 | h2
      · have hg1 : g = 1 := by omega
        subst hg1
        rw [Nat.div_one]
        exact (Nat.one_le_div_iff (by omega)).mpr (by omega)
      · have hsum : 2 ≤ g + n / g := le_trans h2 (Nat.le_add_right g (n / g))
        exact (Nat.one_le_div_iff (by omega)).mpr hsum
    · rw [if_neg hlt]
      exact hg

theorem natSqrt_pos (n : Nat) (hn : 0 < n) : 0 < natSqrt n := by
  rw [natSqrt]
  by_cases h1 : n ≤ 1
  · rw [if_pos h1]; omega
  · rw [if_neg h1]
    have h2 : 2 ≤ n := by omega
    exact natSqrtIter_ge_one n n (n / 2) h2 (by omega)

theorem ratSqrt_pos (q : ℚ) (hq : 0 < q) : 0 < ratSqrt q := by
  rw [ratSqrt]
  apply div_pos
  · have hnum : 0 < q.num := Rat.num_pos.mpr hq
    have : 0 < q.num.toNat := by omega
    exact_mod_cast natSqrt_pos _ this
  · have hden : 0 < q.den := q.pos
    exact_mod_cast natSqrt_pos _ hden

theorem mkResult_score (m : MetaEntry) (s : ℚ) :
    (FaissVectorStore.mkResult m s).score = s := rfl

/-- The mean computed over a single search result is its score. -/
theorem single_result_mean (r : FaissVectorStore.SearchResult) :
    ((([r].take 5).map FaissVectorStore.SearchResult.score).sum
      / ((([r].take 5).map FaissVectorStore.SearchResult.score).length : ℚ)) = r.score := by
  show (r.score + 0) / ((1 : Nat) : ℚ) = r.score
  simp

/-- Searching a one-vector index without filter and with `limit ≥ 2`
returns exactly the one hit, scored by the inner product of the
normalized query with the stored vector. -/
theorem search_single (v : List ℚ) (m : MetaEntry) (q : List ℚ) (limit : Nat)
    (hlim : 2 ≤ limit) :
    FaissVectorStore.search ⟨[v], [m]⟩ q limit none
      = [FaissVectorStore.mkResult m (ip (l2normalize q) v)] := by
  rw [FaissVectorStore.search]
  simp only [List.length_cons, List.length_nil]
  rw [if_neg (by omega)]
  have hmin : min (limit * 2) 1 = 1 := Nat.min_eq_right (by omega)
  rw [hmin]
  have hidx : FaissVectorStore.indexSearch [v] (l2normalize q) 1
      = [(ip (l2normalize q) v, 0)] := rfl
  rw [hidx, FaissVectorStore.collectResults]
  simp only [List.getElem?_cons_zero]
  rw [if_neg (by simp [FaissVectorStore.filteredOut]), if_neg (by omega)]
  rw [FaissVectorStore.collectResults]

/-- C3 (amended): whenever the gate passes and the search returns at
least one result, the confidence of the RAG answer equals the arithmetic
mean of the top-5 (or fewer) similarity scores; it lies in `[0, 1]` when
all those scores do, but is NOT confined to `[0, 1]` in general, because
cosine scores can be negative (see the counterexample). -/
theorem confidence_is_mean_of_top5 (gen : Option (List Char))
    (st : FaissVectorStore.State) (question : List Char) (sf : Option (List Char))
    (R : List FaissVectorStore.SearchResult)
    (hR : R = FaissVectorStore.search st
      (APIClient.get_embedding (TextNormalizer.normalize_query question) false none)
      20 sf)
    (hg : RAGService.is_hindu_text_related question = true)
    (hne : R ≠ []) :
    (RAGService.search_and_answer gen st question sf).confidence
      = ((R.take 5).map FaissVectorStore.SearchResult.score).sum
        / (((R.take 5).map FaissVectorStore.SearchResult.score).length : ℚ) ∧
    ((∀ s ∈ (R.take 5).map FaissVectorStore.SearchResult.score, 0 ≤ s ∧ s ≤ 1) →
      0 ≤ (RAGService.search_and_answer gen st question sf).confidence ∧
      (RAGService.search_and_answer gen st question sf).confidence ≤ 1) := by
  have hmean := confidence_eq_mean gen st question sf R hR hg hne
  refine ⟨hmean, fun hb => ?_⟩
  have hs : (R.take 5).map FaissVectorStore.SearchResult.score ≠ [] := by
    have h5 : R.take 5 ≠ [] := by
      cases R with
      | nil => exact absurd rfl hne
      | cons a t => simp [List.take]
    exact fun hcon => h5 (List.map_eq_nil_iff.mp hcon)
  have := list_mean_bounds _ hs hb
  rw [hmean]
  exact this

/-- C3 witness: against a one-vector index and the gate-passing question
"what is dharma", the returned confidence equals the mean of the top-5
(here: one) scores. -/
theorem confidence_is_mean_of_top5_witness :
    (RAGService.search_and_answer none
        ⟨[(1 : ℚ) :: List.replicate 1023 0], [⟨s2l "t", s2l "gita", [], [], [], [], [], []⟩]⟩
        (s2l "what is dharma") none).confidence
      = (((FaissVectorStore.search
            ⟨[(1 : ℚ) :: List.replicate 1023 0], [⟨s2l "t", s2l "gita", [], [], [], [], [], []⟩]⟩
            (APIClient.get_embedding
              (TextNormalizer.normalize_query (s2l "what is dharma")) false none)
            20 none).take 5).map FaissVectorStore.SearchResult.score).sum
        / ((((FaissVectorStore.search
            ⟨[(1 : ℚ) :: List.replicate 1023 0], [⟨s2l "t", s2l "gita", [], [], [], [], [], []⟩]⟩
            (APIClient.get_embedding
              (TextNormalizer.normalize_query (s2l "what is dharma")) false none)
            20 none).take 5).map FaissVectorStore.SearchResult.score).length : ℚ) :=
  (confidence_is_mean_of_top5 none
    ⟨[(1 : ℚ) :: List.replicate 1023 0], [⟨s2l "t", s2l "gita", [], [], [], [], [], []⟩]⟩
    (s2l "what is dharma") none _ rfl (by decide)
    (by rw [search_single _ _ _ 20 (by omega)]; exact List.cons_ne_nil _ _)).1

/-- C3 counterexample: with a stored vector whose first component is
negative, the hash-embedded query "what is dharma" yields a negative
cosine score, so the returned confidence is negative — not in `[0, 1]`. -/
theorem confidence_out_of_range_cex :
    (RAGService.search_and_answer none
        ⟨[(-1 : ℚ) :: List.replicate 1023 0], [⟨s2l "t", s2l "gita", [], [], [], [], [], []⟩]⟩
        (s2l "what is dharma") none).confidence < 0 := by
  have hsearch := search_single ((-1 : ℚ) :: List.replicate 1023 0)
    ⟨s2l "t", s2l "gita", [], [], [], [], [], []⟩
    (APIClient.get_embedding
      (TextNormalizer.normalize_query (s2l "what is dharma")) false none)
    20 (by omega)
  have hmean := confidence_eq_mean none
    ⟨[(-1 : ℚ) :: List.replicate 1023 0], [⟨s2l "t", s2l "gita", [], [], [], [], [], []⟩]⟩
    (s2l "what is dharma") none _ rfl (by decide)
    (by rw [hsearch]; exact List.cons_ne_nil _ _)
  rw [hsearch] at hmean
  rw [single_result_mean, mkResult_score] at hmean
  rw [hmean]
  -- the embedding starts with the nonzero value 63/255, so the inner
  -- product with the stored vector (-1, 0, ..., 0) is strictly negative
  obtain ⟨t, ht⟩ : ∃ t, APIClient.get_embedding
      (TextNormalizer.normalize_query (s2l "what is dharma")) false none
      = (63 : ℚ) / 255 :: t := by
    have hh : (APIClient.get_embedding
        (TextNormalizer.normalize_query (s2l "what is dharma")) false none).head?
        = some ((63 : ℚ) / 255) := by decide
    cases hcase : APIClient.get_embedding
        (TextNormalizer.normalize_query (s2l "what is dharma")) false none with
    | nil => rw [hcase] at hh; cases hh
    | cons a u =>
      rw [hcase] at hh
      simp only [List.head?_cons, Option.some.injEq] at hh
      exact ⟨u, by rw [hh]⟩
  rw [ht]
  simp only [l2normalize, List.map_cons, ip_cons, ip_replicate_zero, add_zero]
  have hpos : 0 < (63 : ℚ) / 255 / ratSqrt (sumSq ((63 : ℚ) / 255 :: t)) := by
    apply div_pos (by norm_num)
    exact ratSqrt_pos _ (sumSq_cons_pos _ t (by norm_num))
  linarith

/-- C6: a question containing a modern/celebrity keyword is rejected by
the relevance gate before any index access: `search_and_answer` returns
the canned off-topic answer with confidence 0.0, for every index state,
generator outcome and source filter, and regardless of any domain keywords
also present in the question. -/
theorem modern_keyword_short_circuit (gen : Option (List Char))
    (st : FaissVectorStore.State) (question : List Char)
    (sf : Option (List Char))
    (h : RAGService.modern_keywords.any
      (fun k => containsSub k (pyLower question)) = true) :
    RAGService.search_and_answer gen st question sf
      = ⟨RAGService.off_topic_answer, 0, none, none⟩ := by
  have hg : RAGService.is_hindu_text_related question = false := by
    rw [RAGService.is_hindu_text_related]
    simp only [h, if_true]
  rw [RAGService.search_and_answer, hg]
  simp

/-- C6 witness: a question holding both the domain keyword "krishna" and
the modern keyword "cricket" is nevertheless rejected with confidence 0,
even against a non-empty index. -/
theorem modern_keyword_short_circuit_witness :
    RAGService.search_and_answer none
        ⟨[[(1 : ℚ)]], [⟨s2l "t", s2l "gita", [], [], [], [], [], []⟩]⟩
        (s2l "tell me about krishna and cricket") none
      = ⟨RAGService.off_topic_answer, 0, none, none⟩ :=
  modern_keyword_short_circuit none
    ⟨[[(1 : ℚ)]], [⟨s2l "t", s2l "gita", [], [], [], [], [], []⟩]⟩
    (s2l "tell me about krishna and cricket") none (by decide)

end SutraQuery
